import Mathlib

/-!
# QuickDictate — verification of the recording/notes controller

Shallow embedding of the QuickDictate voice-note application
(`src/unnamed/part_000` and `src/unnamed/part_001` hold the two observed
variants of the root `App` component; `src/services/geminiService.ts`,
`src/utils/audioUtils.ts`, `src/components/SavedNotesList.tsx` and
`src/types.ts` are the named modules).  Pure functions of the source are
translated to Lean functions; the asynchronous controller is translated to
an explicit event-step machine, split at the `await` points of the source.
-/

namespace QuickDictate

/-! ## Transcript normalization (`onmessage` handler of both App variants)

The handler appends the incoming fragment and then runs
`newText.replace(/\. /g, '.\n')` over the whole accumulated buffer: a
left-to-right, non-overlapping global replacement of the two-character
pattern `". "` by `".\n"`. -/

/-- Left-to-right non-overlapping global replacement of `". "` by `".\n"`,
exactly the effect of `newText.replace(/\. /g, '.\n')` on the character
sequence. -/
def normalizeChars : List Char → List Char
  | [] => []
  | [c] => [c]
  | c₁ :: c₂ :: rest =>
    if c₁ = '.' ∧ c₂ = ' ' then '.' :: '\n' :: normalizeChars rest
    else c₁ :: normalizeChars (c₂ :: rest)

/-- Decides whether a character sequence contains the literal `". "`
(period-space) substring. -/
def hasPeriodSpace : List Char → Bool
  | [] => false
  | [_] => false
  | c₁ :: c₂ :: rest =>
    if c₁ = '.' ∧ c₂ = ' ' then true else hasPeriodSpace (c₂ :: rest)

/-- String form of the normalization rewrite. -/
def normalize (s : String) : String := ⟨normalizeChars s.data⟩

/-- The functional update applied to the transcript buffer on each fragment
arrival: append the fragment, then normalize the whole buffer
(`setCurrentTranscription(prev => (prev + text).replace(/\. /g, '.\n'))`). -/
def onmessageUpdate (prev text : String) : String := normalize (prev ++ text)

lemma hasPeriodSpace_cons_cons (c₁ c₂ : Char) (l : List Char) :
    hasPeriodSpace (c₁ :: c₂ :: l) =
      if c₁ = '.' ∧ c₂ = ' ' then true else hasPeriodSpace (c₂ :: l) := rfl

lemma hasPeriodSpace_cons_of_ne (c : Char) (hc : c ≠ '.') (l : List Char) :
    hasPeriodSpace (c :: l) = hasPeriodSpace l := by
  cases l with
  | nil => rfl
  | cons d l' => rw [hasPeriodSpace_cons_cons, if_neg (by simp [hc])]

lemma normalizeChars_cons_head (c : Char) (l : List Char) :
    ∃ t, normalizeChars (c :: l) = c :: t := by
  cases l with
  | nil => exact ⟨[], rfl⟩
  | cons d l' =>
    rw [normalizeChars]
    by_cases h : c = '.' ∧ d = ' '
    · exact ⟨'\n' :: normalizeChars l', by rw [if_pos h, h.1]⟩
    · exact ⟨normalizeChars (d :: l'), by rw [if_neg h]⟩

lemma hasPeriodSpace_iff_pattern (l : List Char) :
    hasPeriodSpace l = true ↔ ['.', ' '] <:+: l := by
  induction l with
  | nil =>
    simp only [hasPeriodSpace, Bool.false_eq_true, false_iff]
    rintro ⟨s, t, hst⟩
    have := congrArg List.length hst
    simp at this
  | cons c₁ tl ih =>
    cases tl with
    | nil =>
      simp only [hasPeriodSpace, Bool.false_eq_true, false_iff]
      rintro ⟨s, t, hst⟩
      have := congrArg List.length hst
      simp at this
      omega
    | cons c₂ rest =>
      rw [hasPeriodSpace_cons_cons]
      by_cases h : c₁ = '.' ∧ c₂ = ' '
      · rw [if_pos h]
        simp only [true_iff]
        exact ⟨[], rest, by simp [h.1, h.2]⟩
      · rw [if_neg h, ih]
        constructor
        · exact fun hin => hin.trans (List.IsSuffix.isInfix (List.suffix_cons c₁ (c₂ :: rest)))
        · rintro ⟨s, t, hst⟩
          cases s with
          | nil =>
            exfalso
            apply h
            simp only [List.nil_append, List.cons_append] at hst
            exact ⟨(List.cons.injEq _ _ _ _ ▸ hst).1.symm ▸ rfl, by
              have := (List.cons.injEq _ _ _ _ ▸ hst).2
              exact ((List.cons.injEq _ _ _ _ ▸ this).1).symm ▸ rfl⟩
          | cons a s' =>
            have htl : s' ++ ['.', ' '] ++ t = c₂ :: rest := by
              have := congrArg List.tail hst
              simpa using this
            exact ⟨s', t, htl⟩

lemma normalizeChars_no_periodSpace (l : List Char) :
    hasPeriodSpace (normalizeChars l) = false := by
  induction l using normalizeChars.induct with
  | case1 => rfl
  | case2 c => rfl
  | case3 c₁ c₂ rest h ih =>
    rw [normalizeChars, if_pos h, hasPeriodSpace_cons_cons,
      if_neg (by simp), hasPeriodSpace_cons_of_ne '\n' (by decide)]
    exact ih
  | case4 c₁ c₂ rest h ih =>
    rw [normalizeChars, if_neg h]
    obtain ⟨t, ht⟩ := normalizeChars_cons_head c₂ rest
    rw [ht, hasPeriodSpace_cons_cons, if_neg h, ← ht]
    exact ih

lemma normalizeChars_id_of_no_periodSpace (l : List Char)
    (h : hasPeriodSpace l = false) : normalizeChars l = l := by
  induction l with
  | nil => simp [normalizeChars]
  | cons c₁ tl ih =>
    cases tl with
    | nil => simp [normalizeChars]
    | cons c₂ rest =>
      simp only [hasPeriodSpace] at h
      by_cases hc : c₁ = '.' ∧ c₂ = ' '
      · rw [if_pos hc] at h; exact absurd h (by simp)
      · rw [if_neg hc] at h
        rw [normalizeChars, if_neg hc, ih h]

/-! ## Remote categorizer (`categorizeNote`)

Two variants are present: `src/services/geminiService.ts` (fallback
category `"Notes"`, membership checked against the user list) and
`src/unnamed/part_006` (fallback `"General Note"`, membership checked
against the user list extended with the fallback name).  The remote call
and its possible failure are an input of the embedding (`remote`); the
missing-credential check and the response post-processing are translated
from the source.  A thrown exception is an `Except.error`. -/

/-- Whitespace test of the JS `String.prototype.trim` (the ASCII
whitespace characters and NBSP; the further Unicode space separators the
JS spec includes play no role in any claim). -/
def isJsWhitespace (c : Char) : Bool :=
  c = ' ' ∨ c = '\t' ∨ c = '\n' ∨ c = '\r' ∨ c = '\x0b' ∨ c = '\x0c' ∨
    c = '\u00a0'

/-- Embedding of JS `String.prototype.trim`: strip leading and trailing
whitespace. -/
def jsTrim (s : String) : String :=
  ⟨((s.data.dropWhile isJsWhitespace).reverse.dropWhile
      isJsWhitespace).reverse⟩

/-- Outcome of the remote `generateContent` call: either the response text
or a failure (network error, timeout, …). -/
inductive RemoteOutcome where
  | ok (responseText : String)
  | failure
  deriving DecidableEq, Repr

/-- Embedding of `categorizeNote` from `src/services/geminiService.ts`:
throws when `API_KEY` is unset; otherwise trims the response and returns it
when it is a member of `userCategories`, and returns `"Notes"` both when it
is not and when the remote call fails. -/
def categorizeNote (apiKeySet : Bool) (remote : RemoteOutcome)
    (userCategories : List String) : Except String String :=
  if !apiKeySet then
    .error "API_KEY environment variable not set"
  else
    match remote with
    | .ok responseText =>
      let category := jsTrim responseText
      if userCategories.contains category then .ok category else .ok "Notes"
    | .failure => .ok "Notes"

/-- Embedding of the `categorizeNote` variant of `src/unnamed/part_006`:
the valid categories are `userCategories ++ ["General Note"]` and the
fallback is `"General Note"`. -/
def categorizeNoteGeneral (apiKeySet : Bool) (remote : RemoteOutcome)
    (userCategories : List String) : Except String String :=
  if !apiKeySet then
    .error "API_KEY environment variable not set"
  else
    match remote with
    | .ok responseText =>
      let category := jsTrim responseText
      let validCategories := userCategories ++ ["General Note"]
      if validCategories.contains category then .ok category
      else .ok "General Note"
    | .failure => .ok "General Note"

/-! ## Data model (`src/types.ts`) and note lifecycle

`Note.timestamp` (a JS `Date`) is embedded as a natural number instant;
`Note.id` (`crypto.randomUUID()`) and the current time are inputs of the
save operation, with freshness of the id a hypothesis. -/

/-- Embedding of the `Note` interface of `src/types.ts` (`emailSent`
is optional in the source and absent exactly when never set; it is stored
here as the boolean that the save handlers always provide). -/
structure Note where
  id : String
  text : String
  category : String
  timestamp : Nat
  emailSent : Bool
  deriving DecidableEq, Repr

/-- Embedding of the `AppState` enum of `src/types.ts`. -/
inductive AppState where
  | IDLE
  | RECORDING
  | PROCESSING
  | REVIEW
  deriving DecidableEq, Repr

/-- The pending draft note (`currentNote` state, typed
`Omit<Note, 'id' | 'timestamp'>` minus the flag in the source): the
reviewed-but-unsaved text and category. -/
structure Draft where
  text : String
  category : String
  deriving DecidableEq, Repr

/-- The part of the `App` component state that the note-lifecycle handlers
(`handleSaveNote`, `handleShareNote` / `handleEmailNote`,
`resetCurrentNote`) read and write. -/
structure NoteSt where
  currentNote : Option Draft
  savedNotes : List Note
  justEmailed : Bool
  appState : AppState
  deriving DecidableEq, Repr

/-- Embedding of `resetCurrentNote` (identical in both App variants). -/
def resetCurrentNote (s : NoteSt) : NoteSt :=
  { s with currentNote := none, appState := .IDLE, justEmailed := false }

/-- Embedding of `handleSaveNote` from `src/unnamed/part_000` (the
QuickDictate-titled App variant): the saved record keeps the draft text
unchanged.  `freshId` stands for `crypto.randomUUID()` and `now` for
`new Date()`. -/
def handleSaveNote (freshId : String) (now : Nat) (s : NoteSt) : NoteSt :=
  match s.currentNote with
  | none => s
  | some draft =>
    let newNote : Note :=
      { id := freshId, text := draft.text, category := draft.category,
        timestamp := now, emailSent := s.justEmailed }
    resetCurrentNote { s with savedNotes := newNote :: s.savedNotes }

/-- Embedding of `handleSaveNote` from `src/unnamed/part_001` (the
QuickNotes-titled App variant): the saved record stores the text with the
category label prepended as `"<category>:\n\n<text>"`. -/
def handleSaveNotePrefixed (freshId : String) (now : Nat) (s : NoteSt) : NoteSt :=
  match s.currentNote with
  | none => s
  | some draft =>
    let newNote : Note :=
      { id := freshId, text := draft.category ++ ":\n\n" ++ draft.text,
        category := draft.category, timestamp := now,
        emailSent := s.justEmailed }
    resetCurrentNote { s with savedNotes := newNote :: s.savedNotes }

/-- The externally visible action a share/email handler triggers. -/
inductive ShareAction where
  | mailto (recipient subject body : String)
  | nativeShare (title text : String)
  | alertSetDefaultEmail
  | noAction
  deriving DecidableEq, Repr

/-- Embedding of `handleShareNote` from `src/unnamed/part_000`.
`email` is the optional explicit recipient, `canNativeShare` reflects
`navigator.share` availability, `defaultEmail` is
`settings.defaultEmail`.  A cancelled native share differs from a
successful one only in a logged error, so both map to the same action. -/
def handleShareNote (email : Option String) (canNativeShare : Bool)
    (defaultEmail : String) (s : NoteSt) : NoteSt × ShareAction :=
  match s.currentNote with
  | none => (s, .noAction)
  | some draft =>
    let s := { s with justEmailed := true }
    let subject := "Note: " ++ draft.category
    let body := draft.text
    match email with
    | some e => (s, .mailto e subject body)
    | none =>
      if canNativeShare then (s, .nativeShare subject body)
      else if defaultEmail ≠ "" then (s, .mailto defaultEmail subject body)
      else (s, .alertSetDefaultEmail)

/-- Embedding of `handleEmailNote` from `src/unnamed/part_001`: no native
share; the recipient is `email || settings.defaultEmail` and the body is
the category-prefixed text. -/
def handleEmailNote (email : Option String) (defaultEmail : String)
    (s : NoteSt) : NoteSt × ShareAction :=
  match s.currentNote with
  | none => (s, .noAction)
  | some draft =>
    let s := { s with justEmailed := true }
    let subject := "Note: " ++ draft.category
    let body := draft.category ++ ":\n\n" ++ draft.text
    let recipient := match email with
      | some e => if e ≠ "" then e else defaultEmail
      | none => defaultEmail
    if recipient ≠ "" then (s, .mailto recipient subject body)
    else (s, .alertSetDefaultEmail)

/-- Embedding of `handleDeleteSavedNote` (identical in both variants). -/
def handleDeleteSavedNote (id : String) (s : NoteSt) : NoteSt :=
  { s with savedNotes := s.savedNotes.filter (fun note => note.id ≠ id) }

/-! ## Saved-notes grouping and category ordering
(`src/components/SavedNotesList.tsx`)

The component groups the notes by category with a `reduce` over a plain
object (string keys keep insertion order; each bucket is appended in
place), then sorts `Object.keys` with the priority comparator.
`Array.prototype.sort` is stable (ES2019); it is embedded as a stable
top-down merge sort driven by `compare(a, b) <= 0`. -/

/-- The fixed category priority list (`categoryOrder` constant of
`src/components/SavedNotesList.tsx`). -/
def categoryOrder : List String := ["To-do", "Follow ups", "Ideas", "Notes"]

/-- Embedding of `Array.prototype.indexOf`: index of the first occurrence,
`-1` when absent. -/
def jsIndexOf (l : List String) (a : String) : Int :=
  match l with
  | [] => -1
  | x :: xs =>
    if x = a then 0
    else
      let r := jsIndexOf xs a
      if r = -1 then -1 else r + 1

/-- Embedding of the sort comparator of `SavedNotesList`
(`indexA === -1 → 1`, `indexB === -1 → -1`, else `indexA - indexB`). -/
def compareCategories (a b : String) : Int :=
  let indexA := jsIndexOf categoryOrder a
  let indexB := jsIndexOf categoryOrder b
  if indexA = -1 then 1
  else if indexB = -1 then -1
  else indexA - indexB

/-- The element-retention test a stable comparator sort uses:
`a` may stay before `b` exactly when `compare(a, b) <= 0`. -/
def leCategories (a b : String) : Bool := compareCategories a b ≤ 0

/-- Stable two-way merge of a merge sort (the order of a comparator-driven
stable `Array.prototype.sort`). -/
def mergeBy (le : String → String → Bool) :
    List String → List String → List String
  | [], ys => ys
  | x :: xs, [] => x :: xs
  | x :: xs, y :: ys =>
    if le x y then x :: mergeBy le xs (y :: ys)
    else y :: mergeBy le (x :: xs) ys
termination_by xs ys => xs.length + ys.length

/-- Stable top-down merge sort, the embedding of
`Object.keys(groupedNotes).sort(comparator)`. -/
def sortBy (le : String → String → Bool) : List String → List String
  | [] => []
  | [x] => [x]
  | x :: y :: rest =>
    mergeBy le (sortBy le ((x :: y :: rest).take ((rest.length + 2) / 2)))
      (sortBy le ((x :: y :: rest).drop ((rest.length + 2) / 2)))
termination_by l => l.length
decreasing_by
  · simp only [List.length_take, List.length_cons]; omega
  · simp only [List.length_drop, List.length_cons]; omega

/-- One step of the grouping `reduce`: append the note to its category's
bucket, creating the key at the end on first encounter (JS object string
keys keep insertion order). -/
def addToGroup : List (String × List Note) → Note → List (String × List Note)
  | [], note => [(note.category, [note])]
  | (k, v) :: rest, note =>
    if k = note.category then (k, v ++ [note]) :: rest
    else (k, v) :: addToGroup rest note

/-- Embedding of the `groupedNotes` reduce of `SavedNotesList`. -/
def groupNotes (notes : List Note) : List (String × List Note) :=
  notes.foldl addToGroup []

/-- Bucket lookup (`groupedNotes[category]`, `[]` when absent). -/
def getGroup (g : List (String × List Note)) (cat : String) : List Note :=
  match g with
  | [] => []
  | (k, v) :: rest => if k = cat then v else getGroup rest cat

/-- Embedding of `sortedCategories` of `SavedNotesList`. -/
def sortedCategories (notes : List Note) : List String :=
  sortBy leCategories ((groupNotes notes).map Prod.fst)

/-- Embedding of the `SavedNotesList` variant of `src/unnamed/part_003`:
it applies no grouping and no category sort — `notes.map` renders one row
per note in the order of the saved-notes sequence, each row carrying its
inline category badge and its text. -/
def flatNotesListRows (notes : List Note) : List (String × String) :=
  notes.map (fun note => (note.category, note.text))

lemma jsIndexOf_ge_neg_one (l : List String) (a : String) :
    -1 ≤ jsIndexOf l a := by
  induction l with
  | nil => simp [jsIndexOf]
  | cons x xs ih =>
    simp only [jsIndexOf]
    by_cases hx : x = a
    · simp [hx]
    · rw [if_neg hx]
      by_cases hr : jsIndexOf xs a = -1
      · simp [hr]
      · rw [if_neg hr]; omega

lemma jsIndexOf_eq_neg_one_iff (l : List String) (a : String) :
    jsIndexOf l a = -1 ↔ a ∉ l := by
  induction l with
  | nil => simp [jsIndexOf]
  | cons x xs ih =>
    simp only [jsIndexOf]
    by_cases hx : x = a
    · simp [hx]
    · rw [if_neg hx]
      by_cases hr : jsIndexOf xs a = -1
      · simp [hr, ih.mp hr, Ne.symm hx]
      · rw [if_neg hr]
        have hge := jsIndexOf_ge_neg_one xs a
        have hmem : a ∈ xs := by
          by_contra hmem
          exact hr (ih.mpr hmem)
        constructor
        · intro h; omega
        · intro h
          exact absurd (List.mem_cons_of_mem x hmem) h

/-- The total preorder the comparator induces: listed categories in
priority order first, unlisted ones after them. -/
def priorityLe (a b : String) : Prop :=
  if a ∈ categoryOrder then
    b ∉ categoryOrder ∨ jsIndexOf categoryOrder a ≤ jsIndexOf categoryOrder b
  else b ∉ categoryOrder

lemma priorityLe_trans {a b c : String} (hab : priorityLe a b)
    (hbc : priorityLe b c) : priorityLe a c := by
  unfold priorityLe at *
  by_cases ha : a ∈ categoryOrder
  · rw [if_pos ha] at hab ⊢
    by_cases hb : b ∈ categoryOrder
    · rw [if_pos hb] at hbc
      rcases hab with h | h
      · exact absurd hb h
      rcases hbc with h2 | h2
      · exact Or.inl h2
      · exact Or.inr (le_trans h h2)
    · rw [if_neg hb] at hbc
      exact Or.inl hbc
  · rw [if_neg ha] at hab ⊢
    rw [if_neg hab] at hbc
    exact hbc

lemma leCategories_true_imp {a b : String} (h : leCategories a b = true) :
    priorityLe a b := by
  unfold leCategories compareCategories at h
  unfold priorityLe
  by_cases ha : jsIndexOf categoryOrder a = -1
  · rw [if_pos ha] at h; simp at h
  · have ha' : a ∈ categoryOrder := by
      by_contra hmem
      exact ha ((jsIndexOf_eq_neg_one_iff _ _).mpr hmem)
    rw [if_pos ha']
    rw [if_neg ha] at h
    by_cases hb : jsIndexOf categoryOrder b = -1
    · exact Or.inl ((jsIndexOf_eq_neg_one_iff _ _).mp hb)
    · rw [if_neg hb] at h
      simp only [decide_eq_true_eq] at h
      exact Or.inr (by omega)

lemma leCategories_false_imp {a b : String} (h : leCategories a b = false) :
    priorityLe b a := by
  unfold leCategories compareCategories at h
  unfold priorityLe
  by_cases ha : jsIndexOf categoryOrder a = -1
  · have ha' : a ∉ categoryOrder := (jsIndexOf_eq_neg_one_iff _ _).mp ha
    by_cases hb : b ∈ categoryOrder
    · rw [if_pos hb]; exact Or.inl ha'
    · rw [if_neg hb]; exact ha'
  · rw [if_neg ha] at h
    by_cases hb : jsIndexOf categoryOrder b = -1
    · rw [if_pos hb] at h; simp at h
    · rw [if_neg hb] at h
      simp only [decide_eq_false_iff_not, not_le] at h
      have hb' : b ∈ categoryOrder := by
        by_contra hmem
        exact hb ((jsIndexOf_eq_neg_one_iff _ _).mpr hmem)
      rw [if_pos hb']
      exact Or.inr (by omega)

lemma mergeBy_perm (le : String → String → Bool) :
    ∀ xs ys, List.Perm (mergeBy le xs ys) (xs ++ ys) := by
  intro xs ys
  induction xs, ys using mergeBy.induct le with
  | case1 ys => simp [mergeBy]
  | case2 x xs => simp [mergeBy]
  | case3 x xs y ys hle ih =>
    rw [mergeBy, if_pos hle]
    exact ih.cons x
  | case4 x xs y ys hle ih =>
    rw [mergeBy, if_neg (by simp [hle])]
    exact (ih.cons y).trans List.perm_middle.symm

lemma pairwise_mergeBy (le : String → String → Bool)
    (R : String → String → Prop)
    (htrans : ∀ {a b c}, R a b → R b c → R a c)
    (hT : ∀ {a b}, le a b = true → R a b)
    (hF : ∀ {a b}, le a b = false → R b a) :
    ∀ xs ys, xs.Pairwise R → ys.Pairwise R →
      (mergeBy le xs ys).Pairwise R := by
  intro xs ys hxs hys
  induction xs, ys using mergeBy.induct le with
  | case1 ys => simpa [mergeBy] using hys
  | case2 x xs => simpa [mergeBy] using hxs
  | case3 x xs y ys hle ih =>
    rw [mergeBy, if_pos hle]
    rw [List.pairwise_cons] at hxs
    refine List.Pairwise.cons ?_ (ih hxs.2 hys)
    intro z hz
    rcases List.mem_append.mp ((mergeBy_perm le xs (y :: ys)).mem_iff.mp hz) with hzx | hzy
    · exact hxs.1 z hzx
    · rcases List.mem_cons.mp hzy with rfl | hz'
      · exact hT hle
      · exact htrans (hT hle) ((List.pairwise_cons.mp hys).1 z hz')
  | case4 x xs y ys hle ih =>
    rw [mergeBy, if_neg (by simp [hle])]
    rw [List.pairwise_cons] at hys
    refine List.Pairwise.cons ?_ (ih hxs hys.2)
    intro z hz
    rcases List.mem_append.mp ((mergeBy_perm le (x :: xs) ys).mem_iff.mp hz) with hzx | hzy
    · rcases List.mem_cons.mp hzx with rfl | hz'
      · exact hF (by simpa using hle)
      · exact htrans (hF (by simpa using hle))
          ((List.pairwise_cons.mp hxs).1 z hz')
    · exact hys.1 z hzy

lemma sortBy_perm (le : String → String → Bool) :
    ∀ l, List.Perm (sortBy le l) l := by
  intro l
  induction l using sortBy.induct le with
  | case1 => simp [sortBy]
  | case2 x => simp [sortBy]
  | case3 x y rest ih₁ ih₂ =>
    rw [sortBy]
    refine ((mergeBy_perm le _ _).trans ?_)
    have := (ih₁.append ih₂)
    rw [List.take_append_drop] at this
    exact this

lemma pairwise_sortBy (le : String → String → Bool)
    (R : String → String → Prop)
    (htrans : ∀ {a b c}, R a b → R b c → R a c)
    (hT : ∀ {a b}, le a b = true → R a b)
    (hF : ∀ {a b}, le a b = false → R b a) :
    ∀ l, (sortBy le l).Pairwise R := by
  intro l
  induction l using sortBy.induct le with
  | case1 => simp [sortBy]
  | case2 x => simp [sortBy]
  | case3 x y rest ih₁ ih₂ =>
    rw [sortBy]
    exact pairwise_mergeBy le R htrans hT hF _ _ ih₁ ih₂

lemma getGroup_addToGroup (acc : List (String × List Note)) (note : Note)
    (cat : String) :
    getGroup (addToGroup acc note) cat =
      getGroup acc cat ++ (if note.category = cat then [note] else []) := by
  induction acc with
  | nil =>
    simp only [addToGroup, getGroup]
    by_cases h : note.category = cat
    · simp [h]
    · simp [h, Ne.symm h]
  | cons kv rest ih =>
    obtain ⟨k, v⟩ := kv
    simp only [addToGroup]
    by_cases hk : k = note.category
    · rw [if_pos hk]
      simp only [getGroup]
      by_cases hc : k = cat
      · rw [if_pos hc, if_pos hc, if_pos (hk ▸ hc)]
      · rw [if_neg hc, if_neg hc, if_neg (by rw [← hk]; exact hc), List.append_nil]
    · rw [if_neg hk]
      simp only [getGroup]
      by_cases hc : k = cat
      · rw [if_pos hc, if_pos hc,
          if_neg (by intro h; exact hk (by rw [h, hc])), List.append_nil]
      · rw [if_neg hc, if_neg hc, ih]

lemma getGroup_foldl (notes : List Note) :
    ∀ (acc : List (String × List Note)) (cat : String),
      getGroup (notes.foldl addToGroup acc) cat =
        getGroup acc cat ++ notes.filter (fun n => n.category == cat) := by
  induction notes with
  | nil => intro acc cat; simp
  | cons n rest ih =>
    intro acc cat
    rw [List.foldl_cons, ih, List.filter_cons]
    by_cases h : n.category = cat
    · rw [getGroup_addToGroup, if_pos h]
      simp [h]
    · rw [getGroup_addToGroup, if_neg h]
      simp [h]

/-- The grouping of `SavedNotesList` sends each category to exactly the
notes of that category in their order in the saved-notes sequence. -/
lemma getGroup_groupNotes (notes : List Note) (cat : String) :
    getGroup (groupNotes notes) cat =
      notes.filter (fun n => n.category == cat) := by
  rw [groupNotes, getGroup_foldl]
  simp [getGroup]

/-! ## Audio frame encoder (`src/utils/audioUtils.ts`)

`createBlob` stores `data[i] * 32768` into an `Int16Array`.  The JS
conversion (`ToInt16`) truncates the product toward zero and then wraps it
into the signed 16-bit range; multiplication of a float sample by the
power of two `32768` is exact, so samples are embedded as rationals.
The `Int16Array` buffer is viewed as bytes in little-endian order and
`encode` base64-encodes them (`btoa` over a byte-per-character binary
string). -/

/-- Truncation toward zero of a rational, the rounding `ToInt16` applies
before wrapping (`Rat.num`/`Rat.den` are in lowest terms with a positive
denominator, so integer T-division of them truncates the value). -/
def truncTowardZero (q : ℚ) : Int := q.num.tdiv q.den

/-- Wrap an integer into the signed 16-bit range, the modular step of the
JS `ToInt16` conversion. -/
def toInt16Wrap (n : Int) : Int :=
  let u := n % 65536
  if u < 32768 then u else u - 65536

/-- The value stored by `int16[i] = data[i] * 32768` for sample `s`:
truncate toward zero, then wrap into signed 16 bits (no clamping in the
source). -/
def sampleToInt16 (s : ℚ) : Int := toInt16Wrap (truncTowardZero (s * 32768))

/-- Little-endian byte pair of a signed 16-bit value, the view
`new Uint8Array(int16.buffer)` takes of one element. -/
def int16ToBytesLE (x : Int) : List Nat :=
  let u := (x % 65536).toNat
  [u % 256, u / 256]

/-- Reassemble a little-endian byte stream into signed 16-bit samples. -/
def bytesToInt16LE : List Nat → List Int
  | lo :: hi :: rest =>
    let u := lo + 256 * hi
    (if u < 32768 then (u : Int) else (u : Int) - 65536) :: bytesToInt16LE rest
  | _ => []

/-- The base64 alphabet in index order. -/
def b64Alphabet : List Char :=
  "ABCDEFGHIJKLMNOPQRSTUVWXYZabcdefghijklmnopqrstuvwxyz0123456789+/".data

/-- Character of a sextet value. -/
def sextetChar (n : Nat) : Char := b64Alphabet.getD n 'A'

/-- Sextet value of a base64 character, `none` for a non-alphabet
character. -/
def sextetValue (c : Char) : Option Nat := b64Alphabet.findIdx? (· == c)

/-- Base64 encoding of a byte sequence with `=` padding, the effect of
`btoa` on the binary string `encode` builds byte by byte. -/
def b64encode : List Nat → List Char
  | [] => []
  | [a] => [sextetChar (a / 4), sextetChar (a % 4 * 16), '=', '=']
  | [a, b] =>
    [sextetChar (a / 4), sextetChar (a % 4 * 16 + b / 16),
     sextetChar (b % 16 * 4), '=']
  | a :: b :: c :: rest =>
    sextetChar (a / 4) :: sextetChar (a % 4 * 16 + b / 16) ::
      sextetChar (b % 16 * 4 + c / 64) :: sextetChar (c % 64) ::
      b64encode rest

/-- Base64 decoding back to bytes; `none` on a malformed payload. -/
def b64decode : List Char → Option (List Nat)
  | [] => some []
  | c₁ :: c₂ :: c₃ :: c₄ :: rest =>
    (sextetValue c₁).bind fun s₁ =>
    (sextetValue c₂).bind fun s₂ =>
    if c₃ = '=' ∧ c₄ = '=' ∧ rest = [] then
      some [s₁ * 4 + s₂ / 16]
    else if c₄ = '=' ∧ rest = [] then
      (sextetValue c₃).bind fun s₃ =>
        some [s₁ * 4 + s₂ / 16, s₂ % 16 * 16 + s₃ / 4]
    else
      (sextetValue c₃).bind fun s₃ =>
      (sextetValue c₄).bind fun s₄ =>
      (b64decode rest).bind fun bs =>
        some ((s₁ * 4 + s₂ / 16) :: (s₂ % 16 * 16 + s₃ / 4) ::
          (s₃ % 4 * 64 + s₄) :: bs)
  | _ => none

/-- The PCM byte stream of a frame: each converted sample contributes its
little-endian byte pair, in capture order. -/
def pcmBytes (data : List ℚ) : List Nat :=
  (data.map sampleToInt16).flatMap int16ToBytesLE

/-- Embedding of the `Blob` record `createBlob` returns. -/
structure GenAiBlob where
  data : String
  mimeType : String
  deriving DecidableEq, Repr

/-- Embedding of `createBlob` of `src/utils/audioUtils.ts`. -/
def createBlob (data : List ℚ) : GenAiBlob :=
  { data := ⟨b64encode (pcmBytes data)⟩, mimeType := "audio/pcm;rate=16000" }

/-- Decode a base64 payload back to 16-bit samples, the round-trip reading
of an encoded frame. -/
def decodePcm16 (payload : String) : Option (List Int) :=
  (b64decode payload.data).map bytesToInt16LE

lemma truncTowardZero_intCast (z : ℤ) :
    truncTowardZero ((z : ℚ)) = z := by
  unfold truncTowardZero
  rw [Rat.intCast_num, Rat.intCast_den]
  simp [Int.tdiv_one]

lemma sampleToInt16_one : sampleToInt16 1 = -32768 := by
  unfold sampleToInt16
  rw [show ((1 : ℚ) * 32768) = ((32768 : ℤ) : ℚ) by norm_num,
    truncTowardZero_intCast]
  decide

lemma sampleToInt16_zero : sampleToInt16 0 = 0 := by
  unfold sampleToInt16
  rw [show ((0 : ℚ) * 32768) = ((0 : ℤ) : ℚ) by norm_num,
    truncTowardZero_intCast]
  decide

lemma sextetValue_sextetChar : ∀ n, n < 64 → sextetValue (sextetChar n) = some n := by
  decide

lemma sextetChar_ne_eq : ∀ n, n < 64 → sextetChar n ≠ '=' := by
  decide

lemma b64decode_b64encode (bs : List Nat) (h : ∀ x ∈ bs, x < 256) :
    b64decode (b64encode bs) = some bs := by
  induction bs using b64encode.induct with
  | case1 => rfl
  | case2 a =>
    have ha : a < 256 := h a (by simp)
    rw [b64encode, b64decode]
    rw [sextetValue_sextetChar (a / 4) (by omega),
      sextetValue_sextetChar (a % 4 * 16) (by omega)]
    simp only [Option.some_bind]
    rw [if_pos (by simp)]
    simp only [Option.some.injEq, List.cons.injEq, and_true]
    omega
  | case3 a b =>
    have ha : a < 256 := h a (by simp)
    have hb : b < 256 := h b (by simp)
    rw [b64encode, b64decode]
    rw [sextetValue_sextetChar (a / 4) (by omega),
      sextetValue_sextetChar (a % 4 * 16 + b / 16) (by omega)]
    simp only [Option.some_bind]
    rw [if_neg (by
      rintro ⟨h₃, -⟩
      exact sextetChar_ne_eq (b % 16 * 4) (by omega) h₃)]
    rw [if_pos (by simp)]
    rw [sextetValue_sextetChar (b % 16 * 4) (by omega)]
    simp only [Option.some_bind, Option.some.injEq, List.cons.injEq, and_true]
    omega
  | case4 a b c rest ih =>
    have ha : a < 256 := h a (by simp)
    have hb : b < 256 := h b (by simp)
    have hc : c < 256 := h c (by simp)
    rw [b64encode, b64decode]
    rw [sextetValue_sextetChar (a / 4) (by omega),
      sextetValue_sextetChar (a % 4 * 16 + b / 16) (by omega)]
    simp only [Option.some_bind]
    rw [if_neg (by
      rintro ⟨h₃, -⟩
      exact sextetChar_ne_eq (b % 16 * 4 + c / 64) (by omega) h₃)]
    rw [if_neg (by
      rintro ⟨h₄, -⟩
      exact sextetChar_ne_eq (c % 64) (by omega) h₄)]
    rw [sextetValue_sextetChar (b % 16 * 4 + c / 64) (by omega),
      sextetValue_sextetChar (c % 64) (by omega)]
    rw [ih (fun x hx => h x (by simp [hx]))]
    simp only [Option.some_bind, Option.some.injEq, List.cons.injEq, and_true]
    omega

lemma toInt16Wrap_range (n : Int) :
    -32768 ≤ toInt16Wrap n ∧ toInt16Wrap n < 32768 := by
  unfold toInt16Wrap
  have h₁ : 0 ≤ n % 65536 := Int.emod_nonneg n (by norm_num)
  have h₂ : n % 65536 < 65536 := Int.emod_lt_of_pos n (by norm_num)
  by_cases h : n % 65536 < 32768 <;> simp [h] <;> omega

lemma int16ToBytesLE_lt (x : Int) : ∀ y ∈ int16ToBytesLE x, y < 256 := by
  unfold int16ToBytesLE
  have h₁ : 0 ≤ x % 65536 := Int.emod_nonneg x (by norm_num)
  have h₂ : x % 65536 < 65536 := Int.emod_lt_of_pos x (by norm_num)
  have h₃ : (x % 65536).toNat < 65536 := by omega
  intro y hy
  simp only [List.mem_cons, List.mem_singleton, List.not_mem_nil, or_false] at hy
  rcases hy with rfl | rfl
  · omega
  · omega

lemma bytesToInt16LE_int16ToBytesLE (x : Int)
    (hx : -32768 ≤ x ∧ x < 32768) (rest : List Nat) :
    bytesToInt16LE (int16ToBytesLE x ++ rest) =
      x :: bytesToInt16LE rest := by
  unfold int16ToBytesLE
  have h₁ : 0 ≤ x % 65536 := Int.emod_nonneg x (by norm_num)
  have h₂ : x % 65536 < 65536 := Int.emod_lt_of_pos x (by norm_num)
  have hmod : x % 65536 = if 0 ≤ x then x else x + 65536 := by
    by_cases h : 0 ≤ x
    · rw [if_pos h]
      exact Int.emod_eq_of_lt h (by omega)
    · rw [if_neg h]
      have : x % 65536 = (x + 65536) % 65536 := by omega
      rw [this]
      exact Int.emod_eq_of_lt (by omega) (by omega)
  simp only [List.cons_append, List.nil_append, bytesToInt16LE]
  have hu : (x % 65536).toNat % 256 + 256 * ((x % 65536).toNat / 256) =
      (x % 65536).toNat := by omega
  rw [hu]
  congr 1
  by_cases h : 0 ≤ x
  · rw [if_pos (by omega)]
    omega
  · rw [if_neg (by omega)]
    omega

lemma pcmBytes_lt (data : List ℚ) : ∀ y ∈ pcmBytes data, y < 256 := by
  intro y hy
  unfold pcmBytes at hy
  rw [List.mem_flatMap] at hy
  obtain ⟨l, hl, hyl⟩ := hy
  rw [List.mem_map] at hl
  obtain ⟨q, -, rfl⟩ := hl
  exact int16ToBytesLE_lt _ y hyl

lemma bytesToInt16LE_pcmBytes (data : List ℚ) :
    bytesToInt16LE (pcmBytes data) = data.map sampleToInt16 := by
  induction data with
  | nil => rfl
  | cons q rest ih =>
    unfold pcmBytes at ih ⊢
    simp only [List.map_cons, List.flatMap_cons]
    rw [bytesToInt16LE_int16ToBytesLE (sampleToInt16 q)
      (toInt16Wrap_range (truncTowardZero (q * 32768))), ih]

/-- Decoding an encoded frame recovers exactly the wrap-truncated 16-bit
value of every sample. -/
lemma decodePcm16_createBlob (data : List ℚ) :
    decodePcm16 (createBlob data).data = some (data.map sampleToInt16) := by
  have hrfl : decodePcm16 (createBlob data).data =
      Option.map bytesToInt16LE (b64decode (b64encode (pcmBytes data))) := rfl
  rw [hrfl, b64decode_b64encode _ (pcmBytes_lt data)]
  simp [bytesToInt16LE_pcmBytes]

/-! ## Recording session controller (`handleToggleRecording` and the
session callbacks, identical in `src/unnamed/part_000` and
`src/unnamed/part_001`)

The asynchronous handler is embedded as an event-step machine: each
`await` of the source splits the handler into atomic segments, and the
session callbacks (`onopen`, `onmessage`) and the user's button presses
are further events, interleaved arbitrarily by the single-threaded event
loop.  `stopText` holds the transcript value captured by the stop
handler's closure at the moment of the press; the React state
`currentTranscription` keeps receiving fragment updates independently.
The modeled trace set idealizes two things: a button press while a
previous toggle handler is still between `await` points is treated as a
no-op (no re-entrant handler runs), and `onerror` events (whose handler
releases no resources) are not modeled. -/

/-- Progress of the stop half of `handleToggleRecording`, one value per
`await` point of the source. -/
inductive StopPhase where
  | idle
  | awaitSession
  | awaitAudioClose
  | awaitCategorize
  deriving DecidableEq, Repr

/-- Progress of the start half of `handleToggleRecording`. -/
inductive StartPhase where
  | idle
  | awaitMedia
  deriving DecidableEq, Repr

/-- The controller state: the React state slots together with the mutable
refs and the positions of the in-flight handler segments.
`sessionRef` is non-nullness of `sessionPromiseRef.current`,
`openSessions` counts live connections opened and not yet closed,
`audioRefSet` is non-nullness of `audioContextRef.current`, `audioOpen`
is the context not being in state `closed`, and `pipelineRefsSet` is
non-nullness of the script-processor and media-source refs (set by
`onopen`, never reset to null by the source). -/
structure ControllerSt where
  appState : AppState
  currentTranscription : String
  currentNote : Option Draft
  error : Option String
  sessionRef : Bool
  openSessions : Nat
  audioRefSet : Bool
  audioOpen : Bool
  pipelineRefsSet : Bool
  startPh : StartPhase
  stopPh : StopPhase
  stopText : String
  deriving DecidableEq, Repr

/-- The events the controller reacts to. -/
inductive Event where
  | toggleRecording
  | mediaGranted
  | mediaDenied
  | sessionOpened
  | fragment (text : String)
  | sessionPromiseResolved
  | audioCloseResolved
  | categorizeSucceeded (category : String)
  | categorizeFailed

/-- The transcript evaluation at the end of the stop protocol's cleanup:
a non-empty trimmed transcript suspends at the categorize call, an empty
one clears the buffer and returns to Idle directly. -/
def evalTranscriptStep (s : ControllerSt) : ControllerSt :=
  if jsTrim s.stopText ≠ "" then { s with stopPh := .awaitCategorize }
  else { s with currentTranscription := "", appState := .IDLE, stopPh := .idle }

/-- The audio-pipeline cleanup of the stop protocol: the source guards it
on all three refs being non-null and awaits `audioContext.close()` only
when the context is not already closed. -/
def audioCleanupStep (s : ControllerSt) : ControllerSt :=
  if s.audioRefSet ∧ s.pipelineRefsSet then
    if s.audioOpen then { s with stopPh := .awaitAudioClose }
    else evalTranscriptStep s
  else evalTranscriptStep s

/-- The synchronous prefix of `handleToggleRecording`.  In the stop
branch the state is set to Processing and, when a session promise is
pending, the handler suspends awaiting it **without** nulling the ref;
in the start branch the error, draft and buffer are cleared and the state
set to Recording before any resource exists.  A press during Processing
is a no-op (`DictationButton` is disabled then). -/
def toggleStep (s : ControllerSt) : ControllerSt :=
  if s.startPh ≠ .idle ∨ s.stopPh ≠ .idle then s
  else if s.appState = .RECORDING then
    if s.sessionRef then
      { s with appState := .PROCESSING,
               stopText := s.currentTranscription,
               stopPh := .awaitSession }
    else
      audioCleanupStep
        { s with appState := .PROCESSING,
                 stopText := s.currentTranscription }
  else if s.appState = .PROCESSING then s
  else
    { s with error := none, currentNote := none, currentTranscription := "",
             appState := .RECORDING, startPh := .awaitMedia }

/-- `getUserMedia` resolves: the context is created and
`sessionPromiseRef.current` is assigned the `connect` promise, all
synchronously. -/
def mediaGrantedStep (s : ControllerSt) : ControllerSt :=
  if s.startPh = .awaitMedia then
    { s with startPh := .idle, audioRefSet := true, audioOpen := true,
             sessionRef := true, openSessions := s.openSessions + 1 }
  else s

/-- `getUserMedia` rejects: surface the microphone error, back to Idle. -/
def mediaDeniedStep (s : ControllerSt) : ControllerSt :=
  if s.startPh = .awaitMedia then
    { s with startPh := .idle, appState := .IDLE,
             error := some "Could not access microphone. Please grant permission and try again." }
  else s

/-- `onopen` fires on the open connection and wires the audio pipeline. -/
def sessionOpenedStep (s : ControllerSt) : ControllerSt :=
  if 1 ≤ s.openSessions then { s with pipelineRefsSet := true } else s

/-- `onmessage` with an input-transcription fragment: the handler appends
and renormalizes unconditionally (it consults no session or state
guard). -/
def fragmentStep (text : String) (s : ControllerSt) : ControllerSt :=
  if 1 ≤ s.openSessions then
    { s with currentTranscription :=
        onmessageUpdate s.currentTranscription text }
  else s

/-- The awaited session promise of the stop branch resolves: only now
`session.close()` runs and `sessionPromiseRef.current` is nulled, then
the audio cleanup continues. -/
def sessionPromiseResolvedStep (s : ControllerSt) : ControllerSt :=
  if s.stopPh = .awaitSession then
    audioCleanupStep
      { s with openSessions := s.openSessions - 1, sessionRef := false }
  else s

/-- The awaited `audioContext.close()` resolves. -/
def audioCloseResolvedStep (s : ControllerSt) : ControllerSt :=
  if s.stopPh = .awaitAudioClose then
    evalTranscriptStep { s with audioOpen := false }
  else s

/-- `categorizeNote` resolves: the draft is created from the closure's
transcript and the category, the state moves to Review, and the `finally`
clears the buffer. -/
def categorizeSucceededStep (category : String) (s : ControllerSt) : ControllerSt :=
  if s.stopPh = .awaitCategorize then
    { s with currentNote := some { text := s.stopText, category := category },
             appState := .REVIEW, currentTranscription := "",
             stopPh := .idle }
  else s

/-- `categorizeNote` throws: the catch surfaces the categorization error
and returns to Idle, and the `finally` clears the buffer; no draft is
created. -/
def categorizeFailedStep (s : ControllerSt) : ControllerSt :=
  if s.stopPh = .awaitCategorize then
    { s with error := some "Failed to categorize note. Please try again.",
             appState := .IDLE, currentTranscription := "",
             stopPh := .idle }
  else s

/-- One event-loop step of the controller. -/
def step (s : ControllerSt) : Event → ControllerSt
  | .toggleRecording => toggleStep s
  | .mediaGranted => mediaGrantedStep s
  | .mediaDenied => mediaDeniedStep s
  | .sessionOpened => sessionOpenedStep s
  | .fragment text => fragmentStep text s
  | .sessionPromiseResolved => sessionPromiseResolvedStep s
  | .audioCloseResolved => audioCloseResolvedStep s
  | .categorizeSucceeded category => categorizeSucceededStep category s
  | .categorizeFailed => categorizeFailedStep s

/-- The state of the freshly mounted component. -/
def initialState : ControllerSt :=
  { appState := .IDLE, currentTranscription := "", currentNote := none,
    error := none, sessionRef := false, openSessions := 0,
    audioRefSet := false, audioOpen := false, pipelineRefsSet := false,
    startPh := .idle, stopPh := .idle, stopText := "" }

/-- Run the controller over an event trace. -/
def run (events : List Event) : ControllerSt :=
  events.foldl step initialState

/-- A controller state is reachable when some event trace produces it. -/
def Reachable (s : ControllerSt) : Prop := ∃ events, run events = s

/-- The inductive invariant of the controller. -/
def Inv (s : ControllerSt) : Prop :=
  s.openSessions ≤ 1
  ∧ (s.sessionRef = true ↔ s.openSessions = 1)
  ∧ (s.openSessions = 1 → s.appState = .RECORDING ∨ s.appState = .PROCESSING)
  ∧ (s.startPh = .awaitMedia →
      s.appState = .RECORDING ∧ s.openSessions = 0 ∧ s.stopPh = .idle)
  ∧ (s.stopPh ≠ .idle → s.appState = .PROCESSING ∧ s.startPh = .idle)
  ∧ (s.stopPh = .awaitSession → s.openSessions = 1)
  ∧ ((s.stopPh = .awaitAudioClose ∨ s.stopPh = .awaitCategorize) →
      s.openSessions = 0)
  ∧ (s.appState = .RECORDING → s.stopPh = .idle)
  ∧ ((s.appState = .IDLE ∨ s.appState = .REVIEW) →
      s.openSessions = 0 ∧ s.startPh = .idle ∧ s.stopPh = .idle)
  ∧ ((s.appState = .RECORDING ∨ s.appState = .PROCESSING) →
      s.currentNote = none)
  ∧ (s.stopPh = .awaitCategorize →
      (s.audioRefSet = true ∧ s.pipelineRefsSet = true → s.audioOpen = false))
  ∧ (s.stopPh = .awaitCategorize → jsTrim s.stopText ≠ "")

lemma inv_initialState : Inv initialState := by
  simp [Inv, initialState]

lemma inv_evalTranscriptStep (s : ControllerSt)
    (happ : s.appState = .PROCESSING) (hstart : s.startPh = .idle)
    (hopen : s.openSessions = 0) (href : s.sessionRef = false)
    (hnote : s.currentNote = none)
    (haud : s.audioRefSet = true ∧ s.pipelineRefsSet = true → s.audioOpen = false) :
    Inv (evalTranscriptStep s) := by
  unfold evalTranscriptStep Inv
  split_ifs <;> simp_all

lemma inv_audioCleanupStep (s : ControllerSt)
    (happ : s.appState = .PROCESSING) (hstart : s.startPh = .idle)
    (hopen : s.openSessions = 0) (href : s.sessionRef = false)
    (hnote : s.currentNote = none) :
    Inv (audioCleanupStep s) := by
  unfold audioCleanupStep
  split_ifs with h₁ h₂
  · unfold Inv
    simp_all
  · exact inv_evalTranscriptStep s happ hstart hopen href hnote (by simp_all)
  · exact inv_evalTranscriptStep s happ hstart hopen href hnote (by simp_all)

lemma inv_step (s : ControllerSt) (e : Event) (h : Inv s) :
    Inv (step s e) := by
  obtain ⟨h₁, h₂, h₃, h₄, h₅, h₆, h₇, h₈, h₉, h₁₀, h₁₁, h₁₂⟩ := h
  cases e with
  | toggleRecording =>
    show Inv (toggleStep s)
    unfold toggleStep
    by_cases hg : s.startPh ≠ .idle ∨ s.stopPh ≠ .idle
    · rw [if_pos hg]
      exact ⟨h₁, h₂, h₃, h₄, h₅, h₆, h₇, h₈, h₉, h₁₀, h₁₁, h₁₂⟩
    rw [if_neg hg]
    push_neg at hg
    by_cases hrec : s.appState = .RECORDING
    · rw [if_pos hrec]
      by_cases hsess : s.sessionRef = true
      · rw [if_pos hsess]
        have hone : s.openSessions = 1 := h₂.mp hsess
        unfold Inv
        simp_all
      · rw [if_neg hsess]
        have hzero : s.openSessions = 0 := by
          have : s.openSessions ≠ 1 := fun hc => hsess (h₂.mpr hc)
          omega
        refine inv_audioCleanupStep _ rfl ?_ ?_ ?_ ?_
        · show s.startPh = .idle
          exact hg.1
        · exact hzero
        · show s.sessionRef = false
          simpa using hsess
        · show s.currentNote = none
          exact h₁₀ (Or.inl hrec)
    rw [if_neg hrec]
    by_cases hproc : s.appState = .PROCESSING
    · rw [if_pos hproc]
      exact ⟨h₁, h₂, h₃, h₄, h₅, h₆, h₇, h₈, h₉, h₁₀, h₁₁, h₁₂⟩
    rw [if_neg hproc]
    have hs : s.appState = .IDLE ∨ s.appState = .REVIEW := by
      cases hcase : s.appState <;> simp_all
    have := h₉ hs
    unfold Inv
    simp_all
  | mediaGranted =>
    show Inv (mediaGrantedStep s)
    unfold mediaGrantedStep
    split_ifs with hm
    · have := h₄ hm
      unfold Inv
      simp_all
    · exact ⟨h₁, h₂, h₃, h₄, h₅, h₆, h₇, h₈, h₉, h₁₀, h₁₁, h₁₂⟩
  | mediaDenied =>
    show Inv (mediaDeniedStep s)
    unfold mediaDeniedStep
    split_ifs with hm
    · have := h₄ hm
      unfold Inv
      simp_all
    · exact ⟨h₁, h₂, h₃, h₄, h₅, h₆, h₇, h₈, h₉, h₁₀, h₁₁, h₁₂⟩
  | sessionOpened =>
    show Inv (sessionOpenedStep s)
    unfold sessionOpenedStep
    split_ifs with hm
    · have hone : s.openSessions = 1 := by omega
      have := h₃ hone
      unfold Inv
      simp_all
    · exact ⟨h₁, h₂, h₃, h₄, h₅, h₆, h₇, h₈, h₉, h₁₀, h₁₁, h₁₂⟩
  | fragment text =>
    show Inv (fragmentStep text s)
    unfold fragmentStep
    split_ifs with hm
    · unfold Inv
      simp_all
    · exact ⟨h₁, h₂, h₃, h₄, h₅, h₆, h₇, h₈, h₉, h₁₀, h₁₁, h₁₂⟩
  | sessionPromiseResolved =>
    show Inv (sessionPromiseResolvedStep s)
    unfold sessionPromiseResolvedStep
    split_ifs with hm
    · have hps := h₅ (by simp [hm])
      have hone := h₆ hm
      refine inv_audioCleanupStep _ (by simp [hps.1]) (by simp [hps.2]) ?_ ?_ ?_
      · simp only
        omega
      · rfl
      · simp only
        exact h₁₀ (Or.inr hps.1)
    · exact ⟨h₁, h₂, h₃, h₄, h₅, h₆, h₇, h₈, h₉, h₁₀, h₁₁, h₁₂⟩
  | audioCloseResolved =>
    show Inv (audioCloseResolvedStep s)
    unfold audioCloseResolvedStep
    split_ifs with hm
    · have hps := h₅ (by simp [hm])
      have hzero := h₇ (Or.inl hm)
      refine inv_evalTranscriptStep _ (by simp [hps.1]) (by simp [hps.2]) ?_ ?_ ?_ ?_
      · simpa using hzero
      · show s.sessionRef = false
        cases hb : s.sessionRef
        · rfl
        · exact absurd (h₂.mp hb) (by omega)
      · show s.currentNote = none
        exact h₁₀ (Or.inr hps.1)
      · simp
    · exact ⟨h₁, h₂, h₃, h₄, h₅, h₆, h₇, h₈, h₉, h₁₀, h₁₁, h₁₂⟩
  | categorizeSucceeded category =>
    show Inv (categorizeSucceededStep category s)
    unfold categorizeSucceededStep
    split_ifs with hm
    · have hps := h₅ (by simp [hm])
      have hzero := h₇ (Or.inr hm)
      unfold Inv
      simp_all
    · exact ⟨h₁, h₂, h₃, h₄, h₅, h₆, h₇, h₈, h₉, h₁₀, h₁₁, h₁₂⟩
  | categorizeFailed =>
    show Inv (categorizeFailedStep s)
    unfold categorizeFailedStep
    split_ifs with hm
    · have hps := h₅ (by simp [hm])
      have hzero := h₇ (Or.inr hm)
      unfold Inv
      simp_all
    · exact ⟨h₁, h₂, h₃, h₄, h₅, h₆, h₇, h₈, h₉, h₁₀, h₁₁, h₁₂⟩

lemma inv_foldl (events : List Event) :
    ∀ s, Inv s → Inv (events.foldl step s) := by
  induction events with
  | nil => intro s hs; exact hs
  | cons e es ih =>
    intro s hs
    rw [List.foldl_cons]
    exact ih _ (inv_step s e hs)

lemma inv_run (events : List Event) : Inv (run events) :=
  inv_foldl events initialState inv_initialState

lemma inv_of_reachable (s : ControllerSt) (h : Reachable s) : Inv s := by
  obtain ⟨events, rfl⟩ := h
  exact inv_run events

/-! ## Claim theorems -/

/-- C5: for every fragment-arrival update the accumulated transcript
buffer contains no literal `". "` substring; the normalization rewrite is
idempotent on already-normalized buffers (a buffer lacking `". "` is left
unchanged); and the buffer `"Hello. World"` normalizes to
`"Hello.\nWorld"`. -/
theorem C5_no_period_space_and_idempotent :
    (∀ prev text : String,
      ¬ (['.', ' '] <:+: (onmessageUpdate prev text).data))
    ∧ (∀ s : String, ¬ (['.', ' '] <:+: s.data) → normalize s = s)
    ∧ normalize "Hello. World" = "Hello.\nWorld" := by
  refine ⟨?_, ?_, ?_⟩
  · intro prev text hin
    have hps := (hasPeriodSpace_iff_pattern _).mpr hin
    have : hasPeriodSpace (normalizeChars (prev ++ text).data) = false :=
      normalizeChars_no_periodSpace _
    rw [show (onmessageUpdate prev text).data
        = normalizeChars (prev ++ text).data from rfl] at hps
    rw [hps] at this
    cases this
  · intro str h
    have hf : hasPeriodSpace str.data = false := by
      cases hb : hasPeriodSpace str.data
      · rfl
      · exact absurd ((hasPeriodSpace_iff_pattern _).mp hb) h
    show String.mk (normalizeChars str.data) = str
    rw [normalizeChars_id_of_no_periodSpace _ hf]
  · rfl

/-- C5 witness: the already-normalized buffer `"Hello.\nWorld"` is left
unchanged by a re-run of the rewrite. -/
theorem C5_witness : normalize "Hello.\nWorld" = "Hello.\nWorld" :=
  C5_no_period_space_and_idempotent.2.1 "Hello.\nWorld" (by decide)

/-- C8: whatever the backend responds, the effective category is either a
member of the allowed list or the designated fallback, never the raw
unrecognized string; an unrecognized response yields exactly the fallback
(in both observed variants of `categorizeNote`). -/
theorem C8_fallback_category (responseText : String)
    (userCategories : List String) :
    (jsTrim responseText ∉ userCategories →
      categorizeNote true (.ok responseText) userCategories = .ok "Notes")
    ∧ (∀ c, categorizeNote true (.ok responseText) userCategories = .ok c →
        c ∈ userCategories ∨ c = "Notes")
    ∧ (jsTrim responseText ∉ userCategories →
        jsTrim responseText ≠ "General Note" →
        categorizeNoteGeneral true (.ok responseText) userCategories
          = .ok "General Note")
    ∧ (∀ c, categorizeNoteGeneral true (.ok responseText) userCategories
          = .ok c → c ∈ userCategories ∨ c = "General Note") := by
  refine ⟨?_, ?_, ?_, ?_⟩
  · intro hmem
    unfold categorizeNote
    simp only [Bool.not_true, Bool.false_eq_true, if_false]
    rw [if_neg (by simpa using hmem)]
  · intro c hc
    unfold categorizeNote at hc
    simp only [Bool.not_true, Bool.false_eq_true, if_false] at hc
    by_cases hmem : userCategories.contains (jsTrim responseText)
    · rw [if_pos hmem] at hc
      left
      obtain rfl : jsTrim responseText = c := by simpa using hc
      simpa using hmem
    · rw [if_neg hmem] at hc
      right
      simpa using hc.symm
  · intro hmem hgen
    unfold categorizeNoteGeneral
    simp only [Bool.not_true, Bool.false_eq_true, if_false]
    rw [if_neg (by
      intro hc
      have hmem2 : jsTrim responseText ∈ userCategories ∨
          jsTrim responseText = "General Note" := by simpa using hc
      rcases hmem2 with h | h
      · exact hmem h
      · exact hgen h)]
  · intro c hc
    unfold categorizeNoteGeneral at hc
    simp only [Bool.not_true, Bool.false_eq_true, if_false] at hc
    by_cases hmem : (userCategories ++ ["General Note"]).contains (jsTrim responseText)
    · rw [if_pos hmem] at hc
      obtain rfl : jsTrim responseText = c := by simpa using hc
      simpa using hmem
    · rw [if_neg hmem] at hc
      right
      simpa using hc.symm

/-- C8 witness: the unrecognized response `" Junk "` (trimming to
`"Junk"`, not a member of the allowed list) is mapped to the fallback in
both variants. -/
theorem C8_witness :
    categorizeNote true (.ok " Junk ") ["Work", "Ideas"] = .ok "Notes"
    ∧ categorizeNoteGeneral true (.ok " Junk ") ["Work", "Ideas"]
        = .ok "General Note" :=
  ⟨(C8_fallback_category " Junk " ["Work", "Ideas"]).1 (by decide),
   (C8_fallback_category " Junk " ["Work", "Ideas"]).2.2.1 (by decide)
     (by decide)⟩

/-- C10: `categorizeNote` returns an `error` (throws) exactly when the
API credential is absent; with the credential set every remote failure is
caught and yields the fallback category as an ordinary return value, so
the controller's categorization-failure branch is reachable only through
the missing-credential case.  Both variants behave alike. -/
theorem C10_throws_only_without_api_key (apiKeySet : Bool)
    (remote : RemoteOutcome) (userCategories : List String) :
    ((∃ m, categorizeNote apiKeySet remote userCategories = .error m) ↔
      apiKeySet = false)
    ∧ (apiKeySet = false → categorizeNote apiKeySet remote userCategories
        = .error "API_KEY environment variable not set")
    ∧ (apiKeySet = true → categorizeNote apiKeySet .failure userCategories
        = .ok "Notes")
    ∧ ((∃ m, categorizeNoteGeneral apiKeySet remote userCategories
          = .error m) ↔ apiKeySet = false)
    ∧ (apiKeySet = true →
        categorizeNoteGeneral apiKeySet .failure userCategories
          = .ok "General Note") := by
  cases apiKeySet
  · refine ⟨?_, ?_, ?_, ?_, ?_⟩ <;>
      simp [categorizeNote, categorizeNoteGeneral]
  · refine ⟨?_, ?_, ?_, ?_, ?_⟩
    · simp only [iff_false, Bool.true_eq_false, not_exists]
      intro m hc
      unfold categorizeNote at hc
      cases remote with
      | ok responseText =>
        simp only [Bool.not_true, Bool.false_eq_true, if_false] at hc
        by_cases hmem : userCategories.contains (jsTrim responseText)
        · rw [if_pos hmem] at hc; cases hc
        · rw [if_neg hmem] at hc; cases hc
      | failure => cases hc
    · intro h; cases h
    · intro h
      rfl
    · simp only [iff_false, Bool.true_eq_false, not_exists]
      intro m hc
      unfold categorizeNoteGeneral at hc
      cases remote with
      | ok responseText =>
        simp only [Bool.not_true, Bool.false_eq_true, if_false] at hc
        by_cases hmem :
            (userCategories ++ ["General Note"]).contains (jsTrim responseText)
        · rw [if_pos hmem] at hc; cases hc
        · rw [if_neg hmem] at hc; cases hc
      | failure => cases hc
    · intro h
      rfl

/-- C10 witness: with the credential set, a failing remote call still
returns the fallback; without it, the call throws. -/
theorem C10_witness :
    categorizeNote true .failure ["Work"] = .ok "Notes"
    ∧ categorizeNote false .failure ["Work"]
        = .error "API_KEY environment variable not set" :=
  ⟨(C10_throws_only_without_api_key true .failure ["Work"]).2.2.1 rfl,
   (C10_throws_only_without_api_key false .failure ["Work"]).2.1 rfl⟩

/-- C4 counterexample: the `handleSaveNote` of `src/unnamed/part_000` on
the draft `{text: "buy milk", category: "To-do"}` persists the text
`"buy milk"` unchanged, not the category-prefixed
`"To-do:\n\nbuy milk"` the claim asserts for every save. -/
theorem C4_counterexample :
    (handleSaveNote "id-1" 5
        { currentNote := some { text := "buy milk", category := "To-do" },
          savedNotes := [], justEmailed := false,
          appState := .REVIEW }).savedNotes.map Note.text = ["buy milk"]
    ∧ ("buy milk" : String) ≠ "To-do:\n\nbuy milk" := by
  constructor
  · rfl
  · decide

/-- C4 amended: both save variants assign the given fresh id (unique
against every already-saved note) and the current instant, capture the
pre-save "just emailed" flag as `emailSent`, prepend the record, clear
the draft, reset the flag and return to Idle; the `part_001` variant
stores the category-prefixed text `"<category>:\n\n<text>"`, while the
`part_000` variant stores the draft text unprefixed. -/
theorem C4_save_note (freshId : String) (now : Nat) (s : NoteSt)
    (draft : Draft) (hdraft : s.currentNote = some draft)
    (hfresh : freshId ∉ s.savedNotes.map Note.id) :
    (handleSaveNotePrefixed freshId now s).savedNotes =
      { id := freshId, text := draft.category ++ ":\n\n" ++ draft.text,
        category := draft.category, timestamp := now,
        emailSent := s.justEmailed } :: s.savedNotes
    ∧ (handleSaveNote freshId now s).savedNotes =
      { id := freshId, text := draft.text, category := draft.category,
        timestamp := now, emailSent := s.justEmailed } :: s.savedNotes
    ∧ (∀ n ∈ s.savedNotes, n.id ≠ freshId)
    ∧ (handleSaveNotePrefixed freshId now s).savedNotes.head?.map
        Note.timestamp = some now
    ∧ (handleSaveNotePrefixed freshId now s).currentNote = none
    ∧ (handleSaveNotePrefixed freshId now s).appState = .IDLE
    ∧ (handleSaveNotePrefixed freshId now s).justEmailed = false
    ∧ (handleSaveNote freshId now s).currentNote = none
    ∧ (handleSaveNote freshId now s).appState = .IDLE
    ∧ (handleSaveNote freshId now s).justEmailed = false := by
  unfold handleSaveNote handleSaveNotePrefixed resetCurrentNote
  rw [hdraft]
  refine ⟨rfl, rfl, ?_, rfl, rfl, rfl, rfl, rfl, rfl, rfl⟩
  intro n hn heq
  exact hfresh (heq ▸ List.mem_map_of_mem Note.id hn)

/-- C4 witness: the amended save behavior at the draft
`{text: "buy milk", category: "To-do"}` with a fresh id. -/
theorem C4_witness :
    (handleSaveNotePrefixed "id-1" 5
        { currentNote := some { text := "buy milk", category := "To-do" },
          savedNotes := [], justEmailed := true,
          appState := .REVIEW }).savedNotes =
      [{ id := "id-1", text := "To-do:\n\nbuy milk", category := "To-do",
         timestamp := 5, emailSent := true }] :=
  (C4_save_note "id-1" 5
    { currentNote := some { text := "buy milk", category := "To-do" },
      savedNotes := [], justEmailed := true, appState := .REVIEW }
    { text := "buy milk", category := "To-do" } rfl (by decide)).1

/-- C7 counterexample: in the missing-configuration short-circuit (no
explicit recipient, no native share, no default email) `handleShareNote`
still sets the "just emailed" flag to true — it does not leave it
unchanged as the claim asserts. -/
theorem C7_counterexample :
    (handleShareNote none false ""
        { currentNote := some { text := "t", category := "c" },
          savedNotes := [], justEmailed := false,
          appState := .REVIEW }).2 = .alertSetDefaultEmail
    ∧ (handleShareNote none false ""
        { currentNote := some { text := "t", category := "c" },
          savedNotes := [], justEmailed := false,
          appState := .REVIEW }).1.justEmailed = true := by
  constructor
  · rfl
  · rfl

/-- C7 amended: every share/email attempt on a non-null draft sets the
"just emailed" flag to true unconditionally — including the
missing-configuration short-circuit, which additionally reports the
configuration error; only the null-draft early return leaves the state
untouched.  Holds for both `handleShareNote` (`part_000`) and
`handleEmailNote` (`part_001`). -/
theorem C7_share_sets_flag (email : Option String) (canNativeShare : Bool)
    (defaultEmail : String) (s : NoteSt) :
    (∀ draft, s.currentNote = some draft →
      (handleShareNote email canNativeShare defaultEmail s).1.justEmailed
          = true
      ∧ (handleEmailNote email defaultEmail s).1.justEmailed = true)
    ∧ (s.currentNote = none →
      handleShareNote email canNativeShare defaultEmail s = (s, .noAction)
      ∧ handleEmailNote email defaultEmail s = (s, .noAction))
    ∧ (∀ draft, s.currentNote = some draft → email = none →
      canNativeShare = false → defaultEmail = "" →
      (handleShareNote email canNativeShare defaultEmail s).2
        = .alertSetDefaultEmail) := by
  refine ⟨?_, ?_, ?_⟩
  · intro draft hdraft
    unfold handleShareNote handleEmailNote
    rw [hdraft]
    constructor
    · cases email with
      | none =>
        by_cases hshare : canNativeShare
        · simp [hshare]
        · by_cases hdef : defaultEmail ≠ "" <;> simp [hshare, hdef]
      | some e => rfl
    · cases email with
      | none =>
        by_cases hdef : defaultEmail ≠ "" <;> simp [hdef]
      | some e =>
        by_cases he : e ≠ "" <;> by_cases hdef : defaultEmail ≠ "" <;>
          simp [he, hdef]
  · intro hnone
    unfold handleShareNote handleEmailNote
    rw [hnone]
    exact ⟨rfl, rfl⟩
  · rintro draft hdraft rfl rfl rfl
    unfold handleShareNote
    rw [hdraft]
    rfl

/-- C7 witness: a share attempt without any configured destination sets
the flag and raises the configuration alert; a null draft is a no-op. -/
theorem C7_witness :
    (handleShareNote none false ""
        { currentNote := some { text := "t", category := "c" },
          savedNotes := [], justEmailed := false,
          appState := .REVIEW }).1.justEmailed = true
    ∧ (handleEmailNote none ""
        { currentNote := none, savedNotes := [], justEmailed := false,
          appState := .IDLE }) =
      ({ currentNote := none, savedNotes := [], justEmailed := false,
         appState := .IDLE }, .noAction) :=
  ⟨((C7_share_sets_flag none false ""
      { currentNote := some { text := "t", category := "c" },
        savedNotes := [], justEmailed := false, appState := .REVIEW }).1
      { text := "t", category := "c" } rfl).1,
   ((C7_share_sets_flag none false ""
      { currentNote := none, savedNotes := [], justEmailed := false,
        appState := .IDLE }).2.1 rfl).2⟩

/-- C6 counterexample: the encoder does not send `1.0` to the maximum
positive 16-bit value `32767`; `1.0 * 32768 = 32768` wraps to the minimum
`-32768` (and the conversion truncates rather than rounds). -/
theorem C6_counterexample :
    sampleToInt16 1 = -32768
    ∧ decodePcm16 (createBlob [1]).data = some [-32768]
    ∧ ((-32768 : Int) ≠ 32767) := by
  refine ⟨sampleToInt16_one, ?_, by decide⟩
  rw [decodePcm16_createBlob]
  rw [List.map_cons, List.map_nil, sampleToInt16_one]

/-- C6 amended: an encoded frame base64-decodes (little-endian) back to
exactly the 16-bit values `truncate(s * 32768)` wrapped into the signed
16-bit range — in particular an all-zero frame of any length round-trips
to all zeros — but the sample `1.0` maps to the minimum `-32768` by
wraparound (the source clamps nothing and truncates, it does not
round). -/
theorem C6_pcm_encoding (data : List ℚ) (n : Nat) :
    decodePcm16 (createBlob data).data = some (data.map sampleToInt16)
    ∧ decodePcm16 (createBlob (List.replicate n 0)).data
        = some (List.replicate n (0 : Int))
    ∧ sampleToInt16 0 = 0
    ∧ sampleToInt16 1 = -32768
    ∧ (createBlob data).mimeType = "audio/pcm;rate=16000" := by
  refine ⟨decodePcm16_createBlob data, ?_, sampleToInt16_zero,
    sampleToInt16_one, rfl⟩
  rw [decodePcm16_createBlob, List.map_replicate, sampleToInt16_zero]

/-- C9 counterexample: the `SavedNotesList` variant of
`src/unnamed/part_003` neither groups nor priority-sorts — on a concrete
saved sequence it renders an unlisted-category note (`"Zzz"`) before a
listed one (`"To-do"`) and splits the two `"Zzz"` notes around it, while
the grouped variant orders the categories `["To-do", "Zzz"]` — so the
claim, read over this variant, is false. -/
theorem C9_counterexample :
    (flatNotesListRows
      [{ id := "1", text := "b", category := "Zzz", timestamp := 3,
         emailSent := false },
       { id := "2", text := "a", category := "To-do", timestamp := 2,
         emailSent := false },
       { id := "3", text := "c", category := "Zzz", timestamp := 1,
         emailSent := false }]).map Prod.fst = ["Zzz", "To-do", "Zzz"]
    ∧ ("Zzz" ∉ categoryOrder ∧ "To-do" ∈ categoryOrder)
    ∧ sortedCategories
      [{ id := "1", text := "b", category := "Zzz", timestamp := 3,
         emailSent := false },
       { id := "2", text := "a", category := "To-do", timestamp := 2,
         emailSent := false },
       { id := "3", text := "c", category := "Zzz", timestamp := 1,
         emailSent := false }] = ["To-do", "Zzz"]
    ∧ ¬ (["Zzz", "To-do", "Zzz"] : List String).Pairwise
        (fun a b => b ∈ categoryOrder → a ∈ categoryOrder) := by
  refine ⟨rfl, by decide, ?_, ?_⟩
  · unfold sortedCategories
    rw [show (groupNotes
        [{ id := "1", text := "b", category := "Zzz", timestamp := 3,
           emailSent := false },
         { id := "2", text := "a", category := "To-do", timestamp := 2,
           emailSent := false },
         { id := "3", text := "c", category := "Zzz", timestamp := 1,
           emailSent := false }]).map Prod.fst = ["Zzz", "To-do"]
      from by decide]
    simp [sortBy, mergeBy, leCategories, compareCategories, jsIndexOf,
      categoryOrder]
  · intro hp
    have h := (List.pairwise_cons.mp hp).1 "To-do" (by decide)
    exact absurd (h (by decide)) (by decide)

/-- C9 amended: the `SavedNotesList.tsx` listing groups the notes into
buckets that keep the saved order (most recent first, as the underlying
sequence is prepended), and sorts the category keys so that listed
categories come in priority-list order and every unlisted category comes
after all listed ones; the `part_003` variant instead renders the
saved-notes sequence flat, in save order, without grouping or sorting. -/
theorem C9_grouping_and_order (notes : List Note) :
    (∀ cat, getGroup (groupNotes notes) cat =
      notes.filter (fun n => n.category == cat))
    ∧ List.Perm (sortedCategories notes) ((groupNotes notes).map Prod.fst)
    ∧ (sortedCategories notes).Pairwise (fun a b =>
        (b ∈ categoryOrder → a ∈ categoryOrder)
        ∧ (a ∈ categoryOrder → b ∈ categoryOrder →
            jsIndexOf categoryOrder a ≤ jsIndexOf categoryOrder b)) := by
  refine ⟨getGroup_groupNotes notes, sortBy_perm _ _, ?_⟩
  have hp := pairwise_sortBy leCategories priorityLe
    (fun {a b c} => priorityLe_trans)
    (fun {a b} => leCategories_true_imp)
    (fun {a b} => leCategories_false_imp)
    ((groupNotes notes).map Prod.fst)
  refine hp.imp ?_
  intro a b hab
  unfold priorityLe at hab
  by_cases ha : a ∈ categoryOrder
  · rw [if_pos ha] at hab
    refine ⟨fun _ => ha, fun _ hb => ?_⟩
    rcases hab with h | h
    · exact absurd hb h
    · exact h
  · rw [if_neg ha] at hab
    exact ⟨fun hb => absurd hb hab, fun ha2 => absurd ha2 ha⟩

/-- C9 witness: on three concrete notes the `"To-do"` bucket is exactly
the two `"To-do"` notes in saved order. -/
theorem C9_witness :
    getGroup (groupNotes
      [{ id := "1", text := "a", category := "To-do", timestamp := 1,
         emailSent := false },
       { id := "2", text := "b", category := "Zzz", timestamp := 2,
         emailSent := false },
       { id := "3", text := "c", category := "To-do", timestamp := 3,
         emailSent := false }]) "To-do" =
      [{ id := "1", text := "a", category := "To-do", timestamp := 1,
         emailSent := false },
       { id := "3", text := "c", category := "To-do", timestamp := 3,
         emailSent := false }] := by
  rw [(C9_grouping_and_order _).1 "To-do"]
  decide

/-- C1 counterexample: after stop-initiation (state already Processing,
stop handler suspended awaiting the session promise) the session handle
reference is still set — it is not nulled synchronously — and a
transcription fragment arriving in that window is appended to the
transcript buffer, not ignored. -/
theorem C1_counterexample :
    (run [.toggleRecording, .mediaGranted, .sessionOpened, .fragment "Hi",
      .toggleRecording, .fragment " there"]).appState = .PROCESSING
    ∧ (run [.toggleRecording, .mediaGranted, .sessionOpened, .fragment "Hi",
      .toggleRecording, .fragment " there"]).stopPh = .awaitSession
    ∧ (run [.toggleRecording, .mediaGranted, .sessionOpened, .fragment "Hi",
      .toggleRecording, .fragment " there"]).sessionRef = true
    ∧ (run [.toggleRecording, .mediaGranted, .sessionOpened, .fragment "Hi",
      .toggleRecording, .fragment " there"]).currentTranscription
        = "Hi there" := by
  refine ⟨rfl, rfl, rfl, ?_⟩
  decide

/-- C1 amended: stop-initiation switches to Processing and suspends with
the session handle still set; the handle is nulled only by the later step
in which the awaited session promise resolves and `close()` runs; a
fragment arriving while the connection is open — also after stop has
begun — is appended and renormalized, never ignored; and whichever way
the categorize call ends, the stop protocol clears the buffer. -/
theorem C1_stop_handle_and_fragments (s : ControllerSt) :
    (s.startPh = .idle → s.stopPh = .idle → s.appState = .RECORDING →
      s.sessionRef = true →
      (toggleStep s).sessionRef = true
      ∧ (toggleStep s).stopPh = .awaitSession
      ∧ (toggleStep s).appState = .PROCESSING)
    ∧ (s.stopPh = .awaitSession →
        (sessionPromiseResolvedStep s).sessionRef = false)
    ∧ (∀ text, 1 ≤ s.openSessions →
        (fragmentStep text s).currentTranscription =
          onmessageUpdate s.currentTranscription text)
    ∧ (s.stopPh = .awaitCategorize → ∀ category,
        (categorizeSucceededStep category s).currentTranscription = ""
        ∧ (categorizeFailedStep s).currentTranscription = "") := by
  refine ⟨?_, ?_, ?_, ?_⟩
  · intro hstart hstop hrec hsess
    unfold toggleStep
    rw [if_neg (by simp [hstart, hstop]), if_pos hrec, if_pos hsess]
    exact ⟨hsess, rfl, rfl⟩
  · intro h
    unfold sessionPromiseResolvedStep
    rw [if_pos h]
    unfold audioCleanupStep evalTranscriptStep
    split_ifs <;> rfl
  · intro text h
    unfold fragmentStep
    rw [if_pos h]
  · intro h category
    unfold categorizeSucceededStep categorizeFailedStep
    rw [if_pos h, if_pos h]
    exact ⟨rfl, rfl⟩

/-- C1 witness: the amended stop behavior at a concrete recording state
with an open session. -/
theorem C1_witness :
    (toggleStep (run [.toggleRecording, .mediaGranted,
        .fragment "Hi"])).sessionRef = true
    ∧ (toggleStep (run [.toggleRecording, .mediaGranted,
        .fragment "Hi"])).stopPh = .awaitSession
    ∧ (toggleStep (run [.toggleRecording, .mediaGranted,
        .fragment "Hi"])).appState = .PROCESSING :=
  (C1_stop_handle_and_fragments
    (run [.toggleRecording, .mediaGranted, .fragment "Hi"])).1
    rfl rfl rfl rfl

/-- C2 counterexample: the state/session iff fails in both directions —
right after a start request the state is Recording with no session yet
open, and right after a stop request the state is Processing while the
session is still open. -/
theorem C2_counterexample :
    ((run [.toggleRecording]).appState = .RECORDING
      ∧ (run [.toggleRecording]).openSessions = 0)
    ∧ ((run [.toggleRecording, .mediaGranted, .fragment "Hi",
        .toggleRecording]).appState = .PROCESSING
      ∧ (run [.toggleRecording, .mediaGranted, .fragment "Hi",
        .toggleRecording]).openSessions = 1) := by
  refine ⟨⟨rfl, rfl⟩, rfl, rfl⟩

/-- C2 amended: in every reachable controller state at most one session
is open, and a session can be open only in the Recording or Processing
states; Recording does not guarantee a session (start still in flight)
and the session survives into Processing until its close is awaited.
(Reachability here excludes re-entrant toggle presses and session-error
events, which the source does not clean up after.) -/
theorem C2_session_invariant (s : ControllerSt) (h : Reachable s) :
    s.openSessions ≤ 1
    ∧ (1 ≤ s.openSessions →
        s.appState = .RECORDING ∨ s.appState = .PROCESSING) := by
  have hinv := inv_of_reachable s h
  obtain ⟨h₁, h₂, h₃, -⟩ := hinv
  exact ⟨h₁, fun hle => h₃ (by omega)⟩

/-- C2 witness: the amended invariant at a concrete mid-stop state. -/
theorem C2_witness :
    (run [.toggleRecording, .mediaGranted, .fragment "Hi",
      .toggleRecording]).openSessions ≤ 1
    ∧ (1 ≤ (run [.toggleRecording, .mediaGranted, .fragment "Hi",
        .toggleRecording]).openSessions →
      (run [.toggleRecording, .mediaGranted, .fragment "Hi",
        .toggleRecording]).appState = .RECORDING
      ∨ (run [.toggleRecording, .mediaGranted, .fragment "Hi",
        .toggleRecording]).appState = .PROCESSING) :=
  C2_session_invariant _
    ⟨[.toggleRecording, .mediaGranted, .fragment "Hi", .toggleRecording],
      rfl⟩

/-- C3: in every reachable state suspended at the categorize call (stop
of a recording whose captured transcript is non-empty), the session has
already been closed and its ref nulled and the guarded audio teardown has
already run — unconditionally, before the categorize outcome exists —
and if the call fails the controller surfaces the categorization error,
returns to Idle, clears the transcript buffer and creates no draft. -/
theorem C3_categorize_failure (s : ControllerSt) (h : Reachable s)
    (hstop : s.stopPh = .awaitCategorize) :
    jsTrim s.stopText ≠ ""
    ∧ s.openSessions = 0
    ∧ s.sessionRef = false
    ∧ (s.audioRefSet = true ∧ s.pipelineRefsSet = true →
        s.audioOpen = false)
    ∧ (categorizeFailedStep s).error =
        some "Failed to categorize note. Please try again."
    ∧ (categorizeFailedStep s).appState = .IDLE
    ∧ (categorizeFailedStep s).currentTranscription = ""
    ∧ (categorizeFailedStep s).currentNote = none := by
  have hinv := inv_of_reachable s h
  obtain ⟨h₁, h₂, h₃, h₄, h₅, h₆, h₇, h₈, h₉, h₁₀, h₁₁, h₁₂⟩ := hinv
  have hzero := h₇ (Or.inr hstop)
  have href : s.sessionRef = false := by
    cases hb : s.sessionRef
    · rfl
    · exact absurd (h₂.mp hb) (by omega)
  have hps := h₅ (by simp [hstop])
  have hnote := h₁₀ (Or.inr hps.1)
  refine ⟨h₁₂ hstop, hzero, href, h₁₁ hstop, ?_, ?_, ?_, ?_⟩ <;>
    simp [categorizeFailedStep, hstop, hnote]

/-- C3 witness: the failure handling at a concrete reachable state
suspended at the categorize call. -/
theorem C3_witness :
    (categorizeFailedStep (run [.toggleRecording, .mediaGranted,
      .sessionOpened, .fragment "Hi", .toggleRecording,
      .sessionPromiseResolved, .audioCloseResolved])).error =
        some "Failed to categorize note. Please try again."
    ∧ (categorizeFailedStep (run [.toggleRecording, .mediaGranted,
      .sessionOpened, .fragment "Hi", .toggleRecording,
      .sessionPromiseResolved, .audioCloseResolved])).appState = .IDLE
    ∧ (categorizeFailedStep (run [.toggleRecording, .mediaGranted,
      .sessionOpened, .fragment "Hi", .toggleRecording,
      .sessionPromiseResolved, .audioCloseResolved])).currentTranscription
        = ""
    ∧ (categorizeFailedStep (run [.toggleRecording, .mediaGranted,
      .sessionOpened, .fragment "Hi", .toggleRecording,
      .sessionPromiseResolved, .audioCloseResolved])).currentNote
        = none :=
  (C3_categorize_failure
    (run [.toggleRecording, .mediaGranted, .sessionOpened, .fragment "Hi",
      .toggleRecording, .sessionPromiseResolved, .audioCloseResolved])
    ⟨[.toggleRecording, .mediaGranted, .sessionOpened, .fragment "Hi",
      .toggleRecording, .sessionPromiseResolved, .audioCloseResolved], rfl⟩
    (by decide)).2.2.2.2

end QuickDictate
